import Mathlib

/-!
Verification of the WS2812B LED matrix controller (`LEDClient.py`).

The development shallowly embeds the two classes of the source:

* `LEDMatrix` — serpentine rendering onto a strip driver.  Driver
  interactions (`strip.setPixelColor`, `strip.show`) are modelled as an
  explicit call trace (`List DriverCall`); the driver's recorded pixel
  state is obtained by folding the trace (`runTrace`).
* `LEDClient` — the per-connection message loop.  Messages are the
  decoded protocol frames; Python exceptions are modelled by the
  `Outcome.exn` result, which aborts the loop exactly as the
  `try/except/finally` in `LEDClient.start` does.
-/

/-- An RGB triple as recorded by the driver (each channel a natural). -/
structure RGB where
  r : Nat
  g : Nat
  b : Nat
deriving DecidableEq

/-- Models `Color(r, g, b)` of `rpi_ws281x`: packs three channels into one color value. -/
def Color (r g b : Nat) : RGB := ⟨r, g, b⟩

/-- A single call made to the strip driver. -/
inductive DriverCall where
  | setPixel (index : Nat) (c : RGB)
  | show'
deriving DecidableEq

/-- Models `int(np.clip(x, 0, 255))` on one channel. -/
def clampChan (x : Int) : Nat := (max 0 (min x 255)).toNat

/-- Clamp all three channels of a pixel, as `display_image` does. -/
def clampRGB (p : Int × Int × Int) : RGB :=
  Color (clampChan p.1) (clampChan p.2.1) (clampChan p.2.2)

/-- Models the serpentine index computation of `display_image` (line 23):
`row * cols + (col if row % 2 == 0 else cols - 1 - col)`. -/
def led_index (cols row col : Nat) : Nat :=
  row * cols + (if row % 2 = 0 then col else cols - 1 - col)

/-- Driver calls made by `clear_matrix`: every pixel set to `Color(0,0,0)`, then one show. -/
def clearCalls (led_count : Nat) : List DriverCall :=
  (List.range led_count).map (fun i => .setPixel i (Color 0 0 0)) ++ [.show']

/-- Calls made by the inner loop of `display_image` for one `row`:
each `col` writes the clamped image pixel at the serpentine index. -/
def rowWrites (cols : Nat) (img : Nat → Nat → Int × Int × Int) (row : Nat) : List DriverCall :=
  (List.range cols).map (fun col => .setPixel (led_index cols row col) (clampRGB (img row col)))

/-- Calls made by the double loop of `display_image` (rows outer, cols inner). -/
def framePass (rows cols : Nat) (img : Nat → Nat → Int × Int × Int) : List DriverCall :=
  (List.range rows).flatMap (rowWrites cols img)

/-- Full driver-call trace of `display_image`: it first calls
`clear_matrix` (which itself shows), then writes every pixel, then shows. -/
def displayImageCalls (rows cols : Nat) (img : Nat → Nat → Int × Int × Int) : List DriverCall :=
  clearCalls (rows * cols) ++ framePass rows cols img ++ [.show']

/-- Models `LEDMatrix.wheel`: three linear ramps over positions 0–255. -/
def wheel (pos : Nat) : RGB :=
  if pos < 85 then
    Color (pos * 3) (255 - pos * 3) 0
  else if pos < 170 then
    Color (255 - (pos - 85) * 3) 0 ((pos - 85) * 3)
  else
    Color 0 ((pos - 170) * 3) (255 - (pos - 170) * 3)

/-- Driver calls of one frame (one value of `j`) of `rainbow_sweep`:
for each raw index `i`, the write target is serpentine-corrected but the
wheel position is `(i + j) & 255` with the raw `i`; one show per frame. -/
def rainbowFrame (rows cols j : Nat) : List DriverCall :=
  (List.range (rows * cols)).map (fun i =>
    let row := i / cols
    let col := i % cols
    DriverCall.setPixel (if row % 2 = 0 then i else row * cols + (cols - 1 - col))
      (wheel ((i + j) &&& 255)))
  ++ [.show']

/-- Full driver-call trace of `rainbow_sweep`: frames for `j = 0 .. 255`. -/
def rainbowSweepCalls (rows cols : Nat) : List DriverCall :=
  (List.range 256).flatMap (rainbowFrame rows cols)

/-- Driver calls of `test_pattern`: for each color of the sequence, set
every pixel to it and show. -/
def testPatternCalls (led_count : Nat) (seq : List RGB) : List DriverCall :=
  seq.flatMap (fun c => (List.range led_count).map (fun i => .setPixel i c) ++ [.show'])

/-- Color sequence passed by `run_test_pattern` for `rgb_sweep`. -/
def rgbSweepColors : List RGB := [Color 255 0 0, Color 0 0 255, Color 0 255 0]

/-- Apply one driver call to the driver's recorded pixel state. -/
def applyCall (s : Nat → RGB) : DriverCall → (Nat → RGB)
  | .setPixel i c => fun j => if j = i then c else s j
  | .show' => s

/-- Driver state after a trace of calls. -/
def runTrace (s : Nat → RGB) (l : List DriverCall) : Nat → RGB :=
  l.foldl applyCall s

/-- Does a call write pixel `i`? -/
def writesTo (i : Nat) : DriverCall → Bool
  | .setPixel j _ => j = i
  | .show' => false

/-- Is a call a `show()`? -/
def isShow : DriverCall → Bool
  | .setPixel _ _ => false
  | .show' => true

/-- Matrix geometry held by an `LEDMatrix` instance. -/
structure LEDMatrix where
  rows : Nat
  cols : Nat
deriving DecidableEq

/-- Outcome of handling a message: normal return, or a Python exception. -/
inductive Outcome where
  | ok
  | exn
deriving DecidableEq

/-- Result of a step of the read loop: the (possibly replaced) current
`LEDMatrix`, the driver calls made, and whether an exception was raised. -/
structure StepResult where
  state : Option LEDMatrix
  calls : List DriverCall
  outcome : Outcome
deriving DecidableEq

/-- A decoded protocol message (the tagged union of section 3 of the design). -/
inductive Message where
  | setup (rows cols : Nat)
  | imageData (payload : List Nat)
  | testPattern (code : Nat)
  | other (messageType lengthOrCode : Nat)
deriving DecidableEq

/-- Models `LEDMatrix.__init__(rows, cols)`: geometry is recorded and
`strip.begin()` runs; `beginOk = false` models the driver initialization
raising, in which case no instance is produced. -/
def initMatrix (beginOk : Bool) (rows cols : Nat) : Option LEDMatrix :=
  match beginOk with
  | true => some ⟨rows, cols⟩
  | false => none

/-- Logical pixel `(row, col)` of a flat byte payload reshaped to
`(rows, cols, 3)` as `np.frombuffer(...).reshape(...)` does. -/
def pixelAt (cols : Nat) (payload : List Nat) (row col : Nat) : Int × Int × Int :=
  ((payload.getD ((row * cols + col) * 3) 0 : Nat),
   (payload.getD ((row * cols + col) * 3 + 1) 0 : Nat),
   (payload.getD ((row * cols + col) * 3 + 2) 0 : Nat))

/-- Handle one decoded message of the read loop in `LEDClient.start`.

* Setup (type 0): `self.led_matrix = LEDMatrix(rows, cols)` — the
  assignment happens only after construction returns; a raising
  constructor (`initOk = false`) leaves the old reference in place.
* ImageData (type 1): the reshape raises unless the payload length is
  exactly `rows * cols * 3`; a missing matrix raises (`None.rows`).
  On success `display_image` runs.
* TestPattern (type 2): codes 1 and 2 call into `self.led_matrix`
  (raising when it is `None`); any other code only prints.
* Any other message type falls through the `if/elif` chain silently. -/
def handleMessage (initOk : Bool) (st : Option LEDMatrix) : Message → StepResult
  | .setup rows cols =>
    match initMatrix initOk rows cols with
    | some m => ⟨some m, [], .ok⟩
    | none => ⟨st, [], .exn⟩
  | .imageData payload =>
    match st with
    | none => ⟨none, [], .exn⟩
    | some m =>
      if payload.length = m.rows * m.cols * 3 then
        ⟨some m, displayImageCalls m.rows m.cols (pixelAt m.cols payload), .ok⟩
      else
        ⟨some m, [], .exn⟩
  | .testPattern code =>
    if code = 1 then
      match st with
      | none => ⟨none, [], .exn⟩
      | some m => ⟨some m, testPatternCalls (m.rows * m.cols) rgbSweepColors, .ok⟩
    else if code = 2 then
      match st with
      | none => ⟨none, [], .exn⟩
      | some m => ⟨some m, rainbowSweepCalls m.rows m.cols, .ok⟩
    else
      ⟨st, [], .ok⟩
  | .other _ _ => ⟨st, [], .ok⟩

/-- Run the inner `while True` read loop of `LEDClient.start` on a list of
decoded messages.  The empty list models the zero-byte header read (clean
peer close): the loop breaks normally.  An exception aborts the loop at
the raising message, leaving later messages unprocessed. -/
def runMessages (initOk : Bool) (st : Option LEDMatrix) : List Message → StepResult
  | [] => ⟨st, [], .ok⟩
  | msg :: rest =>
    match handleMessage initOk st msg with
    | ⟨st1, calls1, .exn⟩ => ⟨st1, calls1, .exn⟩
    | ⟨st1, calls1, .ok⟩ =>
      let r2 := runMessages initOk st1 rest
      ⟨r2.state, calls1 ++ r2.calls, r2.outcome⟩

/-- Driver calls of the `finally` block: `clear_matrix()` when a matrix
exists, nothing otherwise. -/
def cleanupCalls : Option LEDMatrix → List DriverCall
  | none => []
  | some m => clearCalls (m.rows * m.cols)

/-- One full connection: run the read loop, then the `finally` cleanup.
Returns the matrix reference that survives into the next connection and
the complete driver-call trace. -/
def runConnection (initOk : Bool) (st : Option LEDMatrix) (ms : List Message) :
    Option LEDMatrix × List DriverCall :=
  let r := runMessages initOk st ms
  (r.state, r.calls ++ cleanupCalls r.state)

/-- The outer accept loop: connections are served one after another and the
`led_matrix` reference persists across them. -/
def runServer (initOk : Bool) (st : Option LEDMatrix) : List (List Message) → Option LEDMatrix × List DriverCall
  | [] => (st, [])
  | conn :: conns =>
    let r := runConnection initOk st conn
    let rs := runServer initOk r.1 conns
    (rs.1, r.2 ++ rs.2)

/-- Claimed wheel, written from the words of the spec read directionally:
positions 0-84 a red-to-green transition (red falls from 255, green rises),
85-169 green-to-blue, 170-255 blue-to-red, each ramp scaled by 3. -/
def wheelClaim (pos : Nat) : RGB :=
  if pos < 85 then Color (255 - pos * 3) (pos * 3) 0
  else if pos < 170 then Color 0 (255 - (pos - 85) * 3) ((pos - 85) * 3)
  else Color ((pos - 170) * 3) 0 (255 - (pos - 170) * 3)

/-- Amended wheel description, written independently of the code text:
positions 0-84 transition green-to-red (red = pos*3 rising, green =
255 - pos*3 falling, blue 0), positions 85-169 red-to-blue, positions
170-255 blue-to-green, each a linear ramp scaled by 3. -/
def wheelAmended (pos : Nat) : RGB :=
  if pos ≤ 84 then Color (pos * 3) (255 - pos * 3) 0
  else if pos ≤ 169 then Color (255 - (pos - 85) * 3) 0 ((pos - 85) * 3)
  else Color 0 ((pos - 170) * 3) (255 - (pos - 170) * 3)

/-! ### Serpentine index lemmas -/

theorem led_index_lt {cols col : Nat} (row : Nat) (h : col < cols) :
    led_index cols row col < (row + 1) * cols := by
  unfold led_index
  have : (row + 1) * cols = row * cols + cols := Nat.succ_mul row cols
  split <;> omega

theorem led_index_ge (cols row col : Nat) : row * cols ≤ led_index cols row col := by
  unfold led_index; omega

theorem led_index_div {cols col : Nat} (row : Nat) (h : col < cols) :
    led_index cols row col / cols = row := by
  exact Nat.div_eq_of_lt_le (led_index_ge cols row col) (led_index_lt row h)

theorem led_index_inj {cols r1 c1 r2 c2 : Nat} (h1 : c1 < cols) (h2 : c2 < cols)
    (he : led_index cols r1 c1 = led_index cols r2 c2) : r1 = r2 ∧ c1 = c2 := by
  have hr : r1 = r2 := by
    have e1 := led_index_div r1 h1
    have e2 := led_index_div r2 h2
    rw [he] at e1; omega
  subst hr
  refine ⟨rfl, ?_⟩
  unfold led_index at he
  split at he <;> omega

theorem led_index_surj {cols rows p : Nat} (hp : p < rows * cols) :
    ∃ row col, row < rows ∧ col < cols ∧ led_index cols row col = p := by
  have hc : 0 < cols := by
    rcases Nat.eq_zero_or_pos cols with h | h
    · subst h; simp at hp
    · exact h
  refine ⟨p / cols, if (p / cols) % 2 = 0 then p % cols else cols - 1 - p % cols, ?_, ?_, ?_⟩
  · exact (Nat.div_lt_iff_lt_mul hc).2 hp
  · have := Nat.mod_lt p hc
    split <;> omega
  · have hm := Nat.mod_lt p hc
    have hd := Nat.div_add_mod p cols
    have hcm : cols * (p / cols) = (p / cols) * cols := Nat.mul_comm _ _
    unfold led_index
    by_cases h : (p / cols) % 2 = 0
    · rw [if_pos h, if_pos h]; omega
    · rw [if_neg h, if_neg h]; omega

/-! ### Trace-state lemmas -/

theorem runTrace_append (s : Nat → RGB) (l1 l2 : List DriverCall) :
    runTrace s (l1 ++ l2) = runTrace (runTrace s l1) l2 := by
  unfold runTrace; rw [List.foldl_append]

theorem applyCall_no_write {i : Nat} {c : DriverCall} (s : Nat → RGB)
    (h : writesTo i c = false) : applyCall s c i = s i := by
  cases c with
  | setPixel j v =>
    simp only [writesTo, decide_eq_false_iff_not] at h
    show (if i = j then v else s i) = s i
    rw [if_neg (fun hh => h hh.symm)]
  | show' => rfl

theorem runTrace_no_write {i : Nat} {l : List DriverCall}
    (h : ∀ c ∈ l, writesTo i c = false) (s : Nat → RGB) : runTrace s l i = s i := by
  induction l generalizing s with
  | nil => rfl
  | cons c rest ih =>
    have hstep : runTrace s (c :: rest) = runTrace (applyCall s c) rest := rfl
    rw [hstep, ih (fun d hd => h d (List.mem_cons_of_mem c hd)),
      applyCall_no_write s (h c (List.mem_cons_self _ _))]

theorem runTrace_unique_write {i : Nat} {v : RGB} {l : List DriverCall}
    (hcount : l.countP (writesTo i) = 1)
    (hmem : DriverCall.setPixel i v ∈ l)
    (huniq : ∀ w, DriverCall.setPixel i w ∈ l → w = v)
    (s : Nat → RGB) : runTrace s l i = v := by
  induction l generalizing s with
  | nil => simp at hmem
  | cons c rest ih =>
    have hstep : runTrace s (c :: rest) = runTrace (applyCall s c) rest := rfl
    rw [List.countP_cons] at hcount
    by_cases hc : writesTo i c = true
    · have hrest0 : rest.countP (writesTo i) = 0 := by
        rw [if_pos hc] at hcount; omega
      have hcv : c = DriverCall.setPixel i v := by
        cases c with
        | setPixel j w =>
          have hji : j = i := by simpa [writesTo] using hc
          have hw : w = v := huniq w (List.mem_cons.2 (Or.inl (by rw [hji])))
          rw [hji, hw]
        | show' => simp [writesTo] at hc
      subst hcv
      rw [hstep, runTrace_no_write
        (fun d hd => by simpa using List.countP_eq_zero.1 hrest0 d hd)]
      simp [applyCall]
    · have hc' : writesTo i c = false := by
        cases hw : writesTo i c with
        | true => exact absurd hw hc
        | false => rfl
      have hmem' : DriverCall.setPixel i v ∈ rest := by
        rcases List.mem_cons.1 hmem with he | hm
        · exfalso; rw [← he] at hc'; simp [writesTo] at hc'
        · exact hm
      have hcount' : rest.countP (writesTo i) = 1 := by
        rw [if_neg hc] at hcount; omega
      rw [hstep]
      exact ih hcount' hmem' (fun w hw => huniq w (List.mem_cons_of_mem c hw)) _

/-! ### Write-counting lemmas for the display pass -/

theorem countP_range_inj {n a : Nat} (f : Nat → Nat) (ha : a < n)
    (hinj : ∀ x, x < n → f x = f a → x = a) :
    (List.range n).countP (fun c => decide (f c = f a)) = 1 := by
  induction n with
  | zero => omega
  | succ n ih =>
    rw [List.range_succ, List.countP_append]
    by_cases han : a < n
    · rw [ih han (fun x hx => hinj x (Nat.lt_succ_of_lt hx))]
      have hfn : ¬ (f n = f a) := fun he => by
        have := hinj n (Nat.lt_succ_self n) he; omega
      simp [List.countP_cons, hfn]
    · have han' : a = n := by omega
      subst han'
      have h0 : (List.range a).countP (fun c => decide (f c = f a)) = 0 := by
        rw [List.countP_eq_zero]
        intro x hx
        have hxa : x < a := List.mem_range.1 hx
        simp only [decide_eq_true_eq]
        intro he
        have := hinj x (Nat.lt_succ_of_lt hxa) he; omega
      rw [h0]
      simp [List.countP_cons]

theorem countP_rowWrites_self (cols : Nat) (img : Nat → Nat → Int × Int × Int)
    {row col : Nat} (hcol : col < cols) :
    (rowWrites cols img row).countP (writesTo (led_index cols row col)) = 1 := by
  unfold rowWrites
  rw [List.countP_map]
  have he : ((writesTo (led_index cols row col)) ∘
      (fun c => DriverCall.setPixel (led_index cols row c) (clampRGB (img row c))))
      = fun c => decide (led_index cols row c = led_index cols row col) := by
    funext c; rfl
  rw [he]
  exact countP_range_inj _ hcol (fun x hx hfx => (led_index_inj hx hcol hfx).2)

theorem countP_rowWrites_ne (cols : Nat) (img : Nat → Nat → Int × Int × Int)
    {row col r : Nat} (hcol : col < cols) (hne : r ≠ row) :
    (rowWrites cols img r).countP (writesTo (led_index cols row col)) = 0 := by
  rw [List.countP_eq_zero]
  intro c hc
  rcases List.mem_map.1 hc with ⟨x, hx, rfl⟩
  have hxlt : x < cols := List.mem_range.1 hx
  simp only [writesTo, decide_eq_true_eq]
  intro he
  exact hne (led_index_inj hxlt hcol he).1

theorem countP_framePass_ge (rows cols : Nat) (img : Nat → Nat → Int × Int × Int)
    {row col : Nat} (hcol : col < cols) (hge : rows ≤ row) :
    (framePass rows cols img).countP (writesTo (led_index cols row col)) = 0 := by
  induction rows with
  | zero => rfl
  | succ n ih =>
    unfold framePass at ih ⊢
    rw [List.range_succ, List.flatMap_append, List.countP_append,
      ih (Nat.le_of_succ_le hge)]
    have : ([n].flatMap (rowWrites cols img)) = rowWrites cols img n := by
      simp
    rw [this, countP_rowWrites_ne cols img hcol (by omega)]

theorem countP_framePass (rows cols : Nat) (img : Nat → Nat → Int × Int × Int)
    {row col : Nat} (hrow : row < rows) (hcol : col < cols) :
    (framePass rows cols img).countP (writesTo (led_index cols row col)) = 1 := by
  induction rows with
  | zero => omega
  | succ n ih =>
    unfold framePass at ih ⊢
    rw [List.range_succ, List.flatMap_append, List.countP_append]
    have hsingle : ([n].flatMap (rowWrites cols img)) = rowWrites cols img n := by
      simp
    rw [hsingle]
    by_cases hn : row < n
    · rw [ih hn, countP_rowWrites_ne cols img hcol (by omega)]
    · have hrn : n = row := by omega
      subst hrn
      have hge := countP_framePass_ge n cols img hcol (Nat.le_refl _)
      unfold framePass at hge
      rw [hge, countP_rowWrites_self cols img hcol]

theorem mem_framePass (rows cols : Nat) (img : Nat → Nat → Int × Int × Int)
    {row col : Nat} (hrow : row < rows) (hcol : col < cols) :
    DriverCall.setPixel (led_index cols row col) (clampRGB (img row col))
      ∈ framePass rows cols img := by
  unfold framePass
  exact List.mem_flatMap.2 ⟨row, List.mem_range.2 hrow,
    List.mem_map.2 ⟨col, List.mem_range.2 hcol, rfl⟩⟩

theorem framePass_write_eq (rows cols : Nat) (img : Nat → Nat → Int × Int × Int)
    {row col : Nat} (hcol : col < cols) {w : RGB}
    (hw : DriverCall.setPixel (led_index cols row col) w ∈ framePass rows cols img) :
    w = clampRGB (img row col) := by
  rcases List.mem_flatMap.1 hw with ⟨r, _, hr⟩
  rcases List.mem_map.1 hr with ⟨c, hc, he⟩
  have hclt : c < cols := List.mem_range.1 hc
  have h1 : led_index cols r c = led_index cols row col := by
    injection he with h1 h2
  have h2 : clampRGB (img r c) = w := by
    injection he with h1' h2'
  rcases led_index_inj hclt hcol h1 with ⟨hrr, hcc⟩
  subst hrr; subst hcc
  exact h2.symm

/-! ### Positional lemmas: where each write sits in the trace -/

theorem rowWrites_getElem (cols : Nat) (img : Nat → Nat → Int × Int × Int)
    {row col : Nat} (hcol : col < cols) :
    (rowWrites cols img row)[col]? =
      some (.setPixel (led_index cols row col) (clampRGB (img row col))) := by
  unfold rowWrites
  rw [List.getElem?_map, List.getElem?_range hcol]
  rfl

theorem length_framePass (rows cols : Nat) (img : Nat → Nat → Int × Int × Int) :
    (framePass rows cols img).length = rows * cols := by
  induction rows with
  | zero => simp [framePass]
  | succ n ih =>
    unfold framePass at ih ⊢
    rw [List.range_succ, List.flatMap_append, List.length_append, ih]
    have : ([n].flatMap (rowWrites cols img)).length = cols := by
      simp [rowWrites]
    rw [this, Nat.succ_mul]

theorem framePass_getElem (rows cols : Nat) (img : Nat → Nat → Int × Int × Int)
    {row col : Nat} (hrow : row < rows) (hcol : col < cols) :
    (framePass rows cols img)[row * cols + col]? =
      some (.setPixel (led_index cols row col) (clampRGB (img row col))) := by
  induction rows with
  | zero => omega
  | succ n ih =>
    have hsplit : framePass (n + 1) cols img = framePass n cols img ++ rowWrites cols img n := by
      unfold framePass
      rw [List.range_succ, List.flatMap_append]
      simp
    rw [hsplit]
    by_cases hn : row < n
    · have hlt : row * cols + col < (framePass n cols img).length := by
        rw [length_framePass]
        have h1 : (row + 1) * cols ≤ n * cols := Nat.mul_le_mul_right cols hn
        rw [Nat.succ_mul] at h1
        omega
      rw [List.getElem?_append_left hlt, ih hn]
    · have hrn : n = row := by omega
      subst hrn
      have hge : (framePass n cols img).length ≤ n * cols + col := by
        rw [length_framePass]; omega
      rw [List.getElem?_append_right hge, length_framePass]
      have hsub : n * cols + col - n * cols = col := by omega
      rw [hsub, rowWrites_getElem cols img hcol]

/-! ### Show-counting lemmas -/

theorem countP_isShow_clearCalls (n : Nat) : (clearCalls n).countP isShow = 1 := by
  unfold clearCalls
  rw [List.countP_append]
  have h0 : ((List.range n).map (fun i => DriverCall.setPixel i (Color 0 0 0))).countP isShow
      = 0 := by
    rw [List.countP_eq_zero]
    intro c hc
    rcases List.mem_map.1 hc with ⟨x, _, rfl⟩
    simp [isShow]
  rw [h0]
  rfl

theorem countP_isShow_framePass (rows cols : Nat) (img : Nat → Nat → Int × Int × Int) :
    (framePass rows cols img).countP isShow = 0 := by
  rw [List.countP_eq_zero]
  intro c hc
  rcases List.mem_flatMap.1 hc with ⟨r, _, hr⟩
  rcases List.mem_map.1 hr with ⟨x, _, rfl⟩
  simp [isShow]

theorem countP_isShow_display (rows cols : Nat) (img : Nat → Nat → Int × Int × Int) :
    (displayImageCalls rows cols img).countP isShow = 2 := by
  unfold displayImageCalls
  rw [List.countP_append, List.countP_append, countP_isShow_clearCalls,
    countP_isShow_framePass]
  rfl

/-! ### Per-pixel write counting over the whole display trace -/

theorem countP_clearCalls_writes {n p : Nat} (hp : p < n) :
    (clearCalls n).countP (writesTo p) = 1 := by
  unfold clearCalls
  rw [List.countP_append, List.countP_map]
  have he : ((writesTo p) ∘ (fun i => DriverCall.setPixel i (Color 0 0 0)))
      = fun c => decide (c = p) := by
    funext c; rfl
  rw [he]
  have h1 : (List.range n).countP (fun c => decide (c = p)) = 1 :=
    countP_range_inj (fun x => x) hp (fun x _ h => h)
  rw [h1]
  rfl

theorem countP_display_writes (rows cols : Nat) (img : Nat → Nat → Int × Int × Int)
    {p : Nat} (hp : p < rows * cols) :
    (displayImageCalls rows cols img).countP (writesTo p) = 2 := by
  obtain ⟨row, col, hrow, hcol, rfl⟩ := led_index_surj hp
  unfold displayImageCalls
  rw [List.countP_append, List.countP_append, countP_clearCalls_writes hp,
    countP_framePass rows cols img hrow hcol]
  rfl

/-! ### Round-trip evaluation of the display trace -/

/-- C8: rendering a frame buffer with `display_image` leaves, at the physical
index of every logical pixel, exactly that pixel's RGB triple with each
channel clamped to [0,255], whatever the driver state was before. -/
theorem display_roundtrip (rows cols : Nat) (img : Nat → Nat → Int × Int × Int)
    (s : Nat → RGB) {row col : Nat} (hrow : row < rows) (hcol : col < cols) :
    runTrace s (displayImageCalls rows cols img) (led_index cols row col)
      = clampRGB (img row col) := by
  unfold displayImageCalls
  rw [runTrace_append, runTrace_append]
  have hshow : ∀ t : Nat → RGB, runTrace t [DriverCall.show'] = t := fun t => rfl
  rw [hshow]
  exact runTrace_unique_write (countP_framePass rows cols img hrow hcol)
    (mem_framePass rows cols img hrow hcol)
    (fun w hw => framePass_write_eq rows cols img hcol hw) _

/-! ### Rainbow sweep lemmas -/

theorem land_255_eq_mod (n : Nat) : n &&& 255 = n % 256 := by
  have h := Nat.and_pow_two_sub_one_eq_mod n 8
  norm_num at h
  exact h

theorem raw_index_eq_led_index (cols i : Nat) :
    (if (i / cols) % 2 = 0 then i else i / cols * cols + (cols - 1 - i % cols))
      = led_index cols (i / cols) (i % cols) := by
  have hd := Nat.div_add_mod i cols
  have hcm : cols * (i / cols) = i / cols * cols := Nat.mul_comm _ _
  unfold led_index
  split <;> omega

theorem rainbowFrame_getElem (rows cols j : Nat) {i : Nat} (hi : i < rows * cols) :
    (rainbowFrame rows cols j)[i]? =
      some (.setPixel (led_index cols (i / cols) (i % cols)) (wheel ((i + j) % 256))) := by
  unfold rainbowFrame
  have hlen : i < ((List.range (rows * cols)).map (fun i =>
      DriverCall.setPixel
        (if (i / cols) % 2 = 0 then i else i / cols * cols + (cols - 1 - i % cols))
        (wheel ((i + j) &&& 255)))).length := by
    simp [hi]
  rw [List.getElem?_append_left hlen, List.getElem?_map, List.getElem?_range hi]
  simp only [Option.map_some']
  rw [land_255_eq_mod, raw_index_eq_led_index]

theorem rainbowFrame_length (rows cols j : Nat) :
    (rainbowFrame rows cols j).length = rows * cols + 1 := by
  unfold rainbowFrame
  simp

theorem rainbowFrame_last (rows cols j : Nat) :
    (rainbowFrame rows cols j)[rows * cols]? = some .show' := by
  unfold rainbowFrame
  have hge : ((List.range (rows * cols)).map (fun i =>
      DriverCall.setPixel
        (if (i / cols) % 2 = 0 then i else i / cols * cols + (cols - 1 - i % cols))
        (wheel ((i + j) &&& 255)))).length ≤ rows * cols := by
    simp
  rw [List.getElem?_append_right hge]
  simp

theorem countP_isShow_rainbowFrame (rows cols j : Nat) :
    (rainbowFrame rows cols j).countP isShow = 1 := by
  unfold rainbowFrame
  rw [List.countP_append]
  have h0 : ((List.range (rows * cols)).map (fun i =>
      DriverCall.setPixel
        (if (i / cols) % 2 = 0 then i else i / cols * cols + (cols - 1 - i % cols))
        (wheel ((i + j) &&& 255)))).countP isShow = 0 := by
    rw [List.countP_eq_zero]
    intro c hc
    rcases List.mem_map.1 hc with ⟨x, _, rfl⟩
    simp [isShow]
  rw [h0]
  rfl

theorem countP_isShow_rainbow_aux (rows cols n : Nat) :
    ((List.range n).flatMap (rainbowFrame rows cols)).countP isShow = n := by
  induction n with
  | zero => rfl
  | succ k ih =>
    rw [List.range_succ, List.flatMap_append, List.countP_append, ih]
    have : ([k].flatMap (rainbowFrame rows cols)) = rainbowFrame rows cols k := by
      simp
    rw [this, countP_isShow_rainbowFrame]

theorem countP_isShow_rainbowSweep (rows cols : Nat) :
    (rainbowSweepCalls rows cols).countP isShow = 256 := by
  unfold rainbowSweepCalls
  exact countP_isShow_rainbow_aux rows cols 256

/-! ### Read-loop step lemmas -/

theorem runMessages_cons_exn {initOk : Bool} {st : Option LEDMatrix} {msg : Message}
    {st1 : Option LEDMatrix} {calls1 : List DriverCall} (rest : List Message)
    (h : handleMessage initOk st msg = ⟨st1, calls1, .exn⟩) :
    runMessages initOk st (msg :: rest) = ⟨st1, calls1, .exn⟩ := by
  unfold runMessages
  rw [h]

theorem runConnection_calls (initOk : Bool) (st : Option LEDMatrix) (ms : List Message) :
    runConnection initOk st ms =
      ((runMessages initOk st ms).state,
       (runMessages initOk st ms).calls ++ cleanupCalls (runMessages initOk st ms).state) := rfl

/-! ### Claim theorems -/

theorem led_index_eq_if (cols row col : Nat) :
    led_index cols row col =
      if row % 2 = 0 then row * cols + col else row * cols + (cols - 1 - col) := by
  unfold led_index
  split <;> rfl

/-- C1: for every matrix geometry with positive rows and cols and every valid
logical coordinate, the physical index computed when rendering pixel
(row, col) is row*cols + col for even rows and row*cols + (cols - 1 - col)
for odd rows; in particular a 1×1 matrix maps its single pixel to physical
index 0. -/
theorem serpentine_physical_index (rows cols row col : Nat)
    (img : Nat → Nat → Int × Int × Int) (hrows : 0 < rows) (hcols : 0 < cols)
    (hrow : row < rows) (hcol : col < cols) :
    (framePass rows cols img)[row * cols + col]? =
      some (.setPixel
        (if row % 2 = 0 then row * cols + col else row * cols + (cols - 1 - col))
        (clampRGB (img row col))) ∧
    (framePass 1 1 img)[0]? = some (.setPixel 0 (clampRGB (img 0 0))) := by
  constructor
  · rw [framePass_getElem rows cols img hrow hcol, led_index_eq_if]
  · exact framePass_getElem 1 1 img Nat.one_pos Nat.one_pos

/-- Witness for C1 at rows = 2, cols = 3, (row, col) = (1, 0): the write for
this pixel lands at physical index 5. -/
theorem serpentine_physical_index_witness :
    (framePass 2 3 (fun _ _ => (7, 8, 9)))[3]? =
      some (.setPixel 5 (clampRGB (7, 8, 9))) ∧
    (framePass 1 1 (fun _ _ => (7, 8, 9)))[0]? = some (.setPixel 0 (clampRGB (7, 8, 9))) :=
  serpentine_physical_index 2 3 1 0 (fun _ _ => (7, 8, 9))
    (by decide) (by decide) (by decide) (by decide)

/-- C2 counterexample: on a 1×1 matrix, `display_image` gives element 0 two
set-pixel writes (the clear pass and the color pass) and calls show twice,
so "exactly one write per element and exactly one show" is false. -/
theorem display_single_write_cex :
    ¬ (((displayImageCalls 1 1 (fun _ _ => (10, 20, 30))).countP (writesTo 0) = 1) ∧
       ((displayImageCalls 1 1 (fun _ _ => (10, 20, 30))).countP isShow = 1)) := by
  decide

/-- C2 amended: `display_image` first runs a full clear pass (which performs
its own show), then writes each physical element exactly once in row-major
logical order, then issues one final show; in total each element receives
exactly two set-pixel writes and show is invoked exactly twice, the last
call of the trace being a show. -/
theorem display_image_trace (rows cols : Nat) (img : Nat → Nat → Int × Int × Int)
    (p : Nat) (hp : p < rows * cols) :
    displayImageCalls rows cols img
        = clearCalls (rows * cols) ++ framePass rows cols img ++ [.show'] ∧
    (framePass rows cols img).countP (writesTo p) = 1 ∧
    (displayImageCalls rows cols img).countP (writesTo p) = 2 ∧
    (displayImageCalls rows cols img).countP isShow = 2 ∧
    (displayImageCalls rows cols img).getLast? = some .show' := by
  refine ⟨rfl, ?_, countP_display_writes rows cols img hp,
    countP_isShow_display rows cols img, ?_⟩
  · obtain ⟨row, col, hrow, hcol, rfl⟩ := led_index_surj hp
    exact countP_framePass rows cols img hrow hcol
  · exact List.getLast?_concat _

/-- Witness for C2 at a 2×2 matrix and physical element 3. -/
theorem display_image_trace_witness :
    (framePass 2 2 (fun _ _ => (1, 2, 3))).countP (writesTo 3) = 1 ∧
    (displayImageCalls 2 2 (fun _ _ => (1, 2, 3))).countP (writesTo 3) = 2 :=
  ⟨(display_image_trace 2 2 (fun _ _ => (1, 2, 3)) 3 (by decide)).2.1,
   (display_image_trace 2 2 (fun _ _ => (1, 2, 3)) 3 (by decide)).2.2.1⟩

/-- C3 counterexample: with a configured 2×2 matrix displaying a frame whose
pixel 0 is (255,0,0), a 3-byte ImageData (≠ 2*2*3 = 12) leaves the driver
all-zero once the connection winds down — the matrix is cleared by the
cleanup, not left unchanged as claimed. -/
theorem image_size_mismatch_cex :
    (runTrace (fun _ => Color 0 0 0)
      (runMessages true none
        [.setup 2 2, .imageData [255, 0, 0, 0, 255, 0, 0, 0, 255, 255, 255, 0]]).calls) 0
      = Color 255 0 0 ∧
    (runTrace (fun _ => Color 0 0 0)
      (runConnection true none
        [.setup 2 2, .imageData [255, 0, 0, 0, 255, 0, 0, 0, 255, 255, 255, 0],
         .imageData [1, 2, 3]]).2) 0 = Color 0 0 0 ∧
    (runTrace (fun _ => Color 0 0 0)
      (runConnection true none
        [.setup 2 2, .imageData [255, 0, 0, 0, 255, 0, 0, 0, 255, 255, 255, 0],
         .imageData [1, 2, 3]]).2) 0 ≠ Color 255 0 0 := by
  refine ⟨by decide, by decide, by decide⟩

/-- C3 amended: an ImageData whose payload length differs from rows*cols*3
raises a reported error with no driver call made while handling that
message; the read loop stops there (later messages of the connection are
dropped) and the cleanup clears the matrix, so the driver-visible state
after the connection is all-zero rather than unchanged. -/
theorem image_size_mismatch (m : LEDMatrix) (payload : List Nat) (rest : List Message)
    (h : payload.length ≠ m.rows * m.cols * 3) :
    handleMessage true (some m) (.imageData payload) = ⟨some m, [], .exn⟩ ∧
    runMessages true (some m) (.imageData payload :: rest) = ⟨some m, [], .exn⟩ ∧
    runConnection true (some m) (.imageData payload :: rest)
      = (some m, clearCalls (m.rows * m.cols)) := by
  have h1 : handleMessage true (some m) (.imageData payload) = ⟨some m, [], .exn⟩ := by
    simp only [handleMessage]
    rw [if_neg h]
  have h2 := runMessages_cons_exn rest h1
  refine ⟨h1, h2, ?_⟩
  rw [runConnection_calls, h2]
  rfl

/-- Witness for C3 at a 2×2 matrix and a 3-byte payload. -/
theorem image_size_mismatch_witness :
    handleMessage true (some ⟨2, 2⟩) (.imageData [1, 2, 3]) = ⟨some ⟨2, 2⟩, [], .exn⟩ ∧
    runMessages true (some ⟨2, 2⟩) [.imageData [1, 2, 3]] = ⟨some ⟨2, 2⟩, [], .exn⟩ ∧
    runConnection true (some ⟨2, 2⟩) [.imageData [1, 2, 3]]
      = (some ⟨2, 2⟩, clearCalls (2 * 2)) :=
  image_size_mismatch ⟨2, 2⟩ [1, 2, 3] [] (by decide)

/-- C4 counterexample: position 85 yields pure red (255,0,0), not a color of
the claimed green-to-blue segment, and position 0 yields pure green, not the
start of a red-to-green ramp. -/
theorem wheel_claim_cex :
    wheel 85 ≠ wheelClaim 85 ∧ wheel 85 = Color 255 0 0 ∧ (wheel 85).g = 0 ∧
    wheel 0 = Color 0 255 0 ∧ wheelClaim 0 = Color 255 0 0 := by
  refine ⟨by decide, by decide, by decide, by decide, by decide⟩

set_option maxRecDepth 4096 in
/-- C4 amended: the wheel is a pure function on positions 0–255 made of three
linear segments scaled by 3 with boundaries 0–84, 85–169 and 170–255, whose
directions are green-to-red, red-to-blue and blue-to-green respectively. -/
theorem wheel_matches_amended : ∀ pos : Fin 256, wheel pos.val = wheelAmended pos.val := by
  decide

/-- C5: rainbow_sweep is exactly the 256 frames j = 0..255 and stops; over the
whole sweep show is called 256 times, once per frame as that frame's last
call; within a frame the i-th write (i a raw row-major index) carries color
wheel((i+j) mod 256) computed from the raw index while its target is the
serpentine-corrected physical index. -/
theorem rainbow_sweep_spec (rows cols j i : Nat) (hj : j < 256) (hi : i < rows * cols) :
    rainbowSweepCalls rows cols = (List.range 256).flatMap (rainbowFrame rows cols) ∧
    (rainbowSweepCalls rows cols).countP isShow = 256 ∧
    (rainbowFrame rows cols j)[i]? =
      some (.setPixel (led_index cols (i / cols) (i % cols)) (wheel ((i + j) % 256))) ∧
    (rainbowFrame rows cols j)[rows * cols]? = some .show' ∧
    (rainbowFrame rows cols j).length = rows * cols + 1 ∧
    (rainbowFrame rows cols j).countP isShow = 1 :=
  ⟨rfl, countP_isShow_rainbowSweep rows cols, rainbowFrame_getElem rows cols j hi,
   rainbowFrame_last rows cols j, rainbowFrame_length rows cols j,
   countP_isShow_rainbowFrame rows cols j⟩

/-- Witness for C5 at rows = 2, cols = 3, frame j = 1, raw index i = 4: the
write targets physical index 4 (row 1 reversed) with color wheel(5). -/
theorem rainbow_sweep_spec_witness :
    (rainbowFrame 2 3 1)[4]? = some (.setPixel 4 (wheel 5)) ∧
    (rainbowFrame 2 3 1)[6]? = some .show' :=
  ⟨(rainbow_sweep_spec 2 3 1 4 (by decide) (by decide)).2.2.1,
   (rainbow_sweep_spec 2 3 1 4 (by decide) (by decide)).2.2.2.1⟩

theorem runServer_cons (initOk : Bool) (st : Option LEDMatrix)
    (conn : List Message) (conns : List (List Message)) :
    runServer initOk st (conn :: conns) =
      ((runServer initOk (runConnection initOk st conn).1 conns).1,
       (runConnection initOk st conn).2 ++
         (runServer initOk (runConnection initOk st conn).1 conns).2) := rfl

/-- C6 counterexample: TestPattern code 1 before any Setup aborts the read
loop — a Setup sent right after it on the same connection is never
processed, so the connection does not continue as claimed. -/
theorem unconfigured_use_cex :
    (runMessages true none [.testPattern 1, .setup 2 2]).state ≠ some ⟨2, 2⟩ ∧
    (runMessages true none [.testPattern 1, .setup 2 2]).outcome = .exn := by
  refine ⟨by decide, by decide⟩

/-- C6 amended: ImageData or TestPattern code 1 before any Setup raises an
error that is reported and does not crash the server — the connection is
closed (remaining messages dropped, cleanup makes no driver calls since no
matrix exists) and the server goes on to serve the following connections
unchanged. -/
theorem unconfigured_use (payload : List Nat) (rest : List Message)
    (conns : List (List Message)) :
    handleMessage true none (.testPattern 1) = ⟨none, [], .exn⟩ ∧
    handleMessage true none (.imageData payload) = ⟨none, [], .exn⟩ ∧
    runMessages true none (.testPattern 1 :: rest) = ⟨none, [], .exn⟩ ∧
    runConnection true none (.testPattern 1 :: rest) = (none, []) ∧
    runServer true none ((.testPattern 1 :: rest) :: conns) = runServer true none conns := by
  have h1 : handleMessage true none (.testPattern 1) = ⟨none, [], .exn⟩ := rfl
  have h3 := runMessages_cons_exn rest h1
  have h4 : runConnection true none (.testPattern 1 :: rest) = (none, []) := by
    rw [runConnection_calls, h3]
    rfl
  refine ⟨h1, rfl, h3, h4, ?_⟩
  rw [runServer_cons, h4]
  rfl

/-- C7: a zero-byte header read (empty message stream) ends the read loop
normally — no error, no driver calls, state kept; and on any loop exit that
leaves a configured matrix, cleanup appends exactly one clear: rows*cols
writes of (0,0,0) in index order followed by exactly one show. -/
theorem clean_close_and_cleanup (initOk : Bool) (st : Option LEDMatrix)
    (ms : List Message) (m : LEDMatrix)
    (h : (runMessages initOk st ms).state = some m) :
    runMessages initOk st [] = ⟨st, [], .ok⟩ ∧
    (runConnection initOk st ms).2 = (runMessages initOk st ms).calls ++
      ((List.range (m.rows * m.cols)).map (fun i => DriverCall.setPixel i (Color 0 0 0))
        ++ [.show']) := by
  refine ⟨rfl, ?_⟩
  rw [runConnection_calls, h]
  rfl

/-- Witness for C7: a connection carrying one Setup(2,2) and nothing else
ends with the clear block of 4 zero-writes and one show. -/
theorem clean_close_and_cleanup_witness :
    runMessages true none ([] : List Message) = ⟨none, [], .ok⟩ ∧
    (runConnection true none [Message.setup 2 2]).2 =
      (runMessages true none [Message.setup 2 2]).calls ++
      ((List.range (2 * 2)).map (fun i => DriverCall.setPixel i (Color 0 0 0)) ++ [.show']) :=
  clean_close_and_cleanup true none [Message.setup 2 2] ⟨2, 2⟩ (by decide)

/-- Witness for C8 at a 2×2 matrix, pixel (1,0), with an out-of-range input
pixel (300, -5, 128): the recorded color is the clamp (255, 0, 128). -/
theorem display_roundtrip_witness :
    runTrace (fun _ => Color 9 9 9)
      (displayImageCalls 2 2 (fun _ _ => (300, -5, 128))) (led_index 2 1 0)
      = clampRGB (300, -5, 128) ∧
    clampRGB (300, -5, 128) = Color 255 0 128 :=
  ⟨display_roundtrip 2 2 (fun _ _ => (300, -5, 128)) (fun _ => Color 9 9 9)
    (by decide) (by decide), by decide⟩

set_option maxRecDepth 4096 in
/-- C9: the wheel is total on positions 0–255 and each channel of its output
lies within [0,255], including at the segment boundaries 84, 85, 169, 170
and 255. -/
theorem wheel_channels_in_range :
    ∀ pos : Fin 256,
      (wheel pos.val).r ≤ 255 ∧ (wheel pos.val).g ≤ 255 ∧ (wheel pos.val).b ≤ 255 := by
  decide

/-- C10: the Setup handler assigns the current-matrix reference only after
`LEDMatrix` construction returns; if driver initialization raises, the
previously held reference (or the none state) is retained unchanged, and on
success the reference is replaced by the new geometry. -/
theorem setup_assignment_atomic (st : Option LEDMatrix) (r c : Nat) :
    (handleMessage false st (.setup r c)).state = st ∧
    (handleMessage false st (.setup r c)).calls = [] ∧
    (handleMessage false st (.setup r c)).outcome = .exn ∧
    (handleMessage true st (.setup r c)).state = some ⟨r, c⟩ :=
  ⟨rfl, rfl, rfl, rfl⟩
